import Mathlib

/-!
Verification of the stream-operator layer of the genji query engine
(`src/document/stream/operator.go`), over a shallow embedding in Lean.

The operator code under `src/` is translated directly.  The `Environment`
scope frames, the `Stream.Iterate` traversal driver and the expression
evaluator live elsewhere in the repository and are modelled from the
specification (sections 3, 4.1, 4.2 and 6 of the spec): environments are
frames of name/value bindings with a current-value slot and an optional
outer frame; expressions are their evaluation functions; a traversal
delivers environments to a step function in order, keeps outputs of
passed items, skips suppressed ones and aborts at the first error.
-/

set_option autoImplicit false

namespace Genji

/-- Modelled from the spec: the external tagged `Value` union produced by the
storage layer (spec section 3).  Only the tags the operators inspect are
needed; the double/blob/document/array variants play no role in the claims. -/
inductive Value where
  | nullV : Value
  | boolV (b : Bool) : Value
  | intV (n : Int) : Value
  | textV (s : String) : Value
  deriving DecidableEq, Repr

/-- Errors flowing through a traversal.  `streamClosed` embeds the Go sentinel
`ErrStreamClosed`; every other error is carried opaquely as a message. -/
inductive Err where
  | streamClosed : Err
  | failure (msg : String) : Err
  deriving DecidableEq, Repr

/-- Modelled from the spec: an `Environment` scope frame (spec section 4.1) —
local bindings, one current-value slot, and an optional outer frame. -/
inductive Environment where
  | mk (vars : List (String × Value)) (current : Option Value) (outer : Option Environment) : Environment

def Environment.vars : Environment → List (String × Value)
  | .mk vs _ _ => vs

def Environment.current : Environment → Option Value
  | .mk _ c _ => c

def Environment.outer : Environment → Option Environment
  | .mk _ _ o => o

/-- Overwrite-or-append of a binding in a local frame, per spec section 4.1:
`set` overwrites any prior local binding of the same name. -/
def setAssoc : List (String × Value) → String → Value → List (String × Value)
  | [], name, v => [(name, v)]
  | (k, w) :: rest, name, v =>
      if k = name then (name, v) :: rest else (k, w) :: setAssoc rest name v

/-- Modelled from the spec: `Environment.Set` binds in the local frame only. -/
def Environment.set : Environment → String → Value → Environment
  | .mk vs c o, name, v => .mk (setAssoc vs name v) c o

/-- Modelled from the spec: `Environment.SetCurrentValue`. -/
def Environment.setCurrentValue : Environment → Value → Environment
  | .mk vs _ o, v => .mk vs (some v) o

/-- Assigning the `Outer` field of a frame. -/
def Environment.setOuter : Environment → Option Environment → Environment
  | .mk vs c _, o => .mk vs c o

def lookupLocal : List (String × Value) → String → Option Value
  | [], _ => none
  | (k, w) :: rest, name => if k = name then some w else lookupLocal rest name

/-- Modelled from the spec: `Environment.Get` — local bindings first, then the
outer frame (lexical shadowing, spec section 4.1). -/
def Environment.get : Environment → String → Option Value
  | .mk vs _ o, name =>
      match lookupLocal vs name with
      | some v => some v
      | none =>
          match o with
          | some out => out.get name
          | none => none

/-- The zero `expr.Environment{}` value: no bindings, no current value, no
outer frame. -/
def emptyEnv : Environment := .mk [] none none

/-- Modelled from the spec: the external expression evaluator contract
(spec section 6) — an expression is represented by its evaluation function
`evaluate(expression, environment) -> (Value, error)`. -/
def Expr := Environment → Except Err Value

/-- Whether `v.Type == document.IntegerValue`. -/
def Value.typeIsInteger : Value → Bool
  | .intV _ => true
  | _ => false

/-- Modelled from the spec: `castToInteger(Value) -> (int64, error)` — coerce
to an integer, fail if not numeric/convertible (spec sections 6 and 7). -/
def Value.castAsInteger : Value → Except Err Value
  | .intV n => .ok (.intV n)
  | .boolV b => .ok (.intV (if b then 1 else 0))
  | .nullV => .error (.failure "cannot cast null to integer")
  | .textV _ => .error (.failure "cannot cast text to integer")

/-- The `v.V.(int64)` assertion, applied only to integer-typed values. -/
def Value.toInt : Value → Int
  | .intV n => n
  | _ => 0

/-- Modelled from the spec: `isTruthy(Value) -> (bool, error)` from the
evaluator contract (spec section 6); values without a truthy conversion
yield an error (spec section 4.4). -/
def Value.isTruthy : Value → Except Err Bool
  | .nullV => .ok false
  | .boolV b => .ok b
  | .intV n => .ok (n ≠ 0)
  | .textV _ => .error (.failure "text has no truthy conversion")

/-- Outcome of one step-function invocation, the Go pair
`(*expr.Environment, error)`: an error, a suppressed item (`nil, nil`),
or a passed environment. -/
abbrev OpResult := Except Err (Option Environment)

/-- `MapOperator.Op`'s step function: evaluate `E` against the incoming
environment; on success return the (reused) output frame with its current
value set to the result and its outer reference set to the incoming
environment.  The frame never acquires named bindings, so its contents after
each invocation are exactly `⟨[], some v, some env⟩`. -/
def mapStep (E : Expr) (env : Environment) : OpResult :=
  match E env with
  | .error err => .error err
  | .ok v => .ok (some (.mk [] (some v) (some env)))

/-- `FilterOperator.Op`'s step function: evaluate `E`, convert to truthiness;
errors propagate, falsy suppresses, truthy passes the incoming environment
through unchanged. -/
def filterStep (E : Expr) (env : Environment) : OpResult :=
  match E env with
  | .error err => .error err
  | .ok v =>
      match v.isTruthy with
      | .error err => .error err
      | .ok ok => if ok then .ok (some env) else .ok none

/-- Construction phase of `TakeOperator.Op`: evaluate the count expression
once against an empty environment, cast to integer when the value is not
integer-typed, and return the resulting count `n` captured by the closure. -/
def TakeOperator.Op (E : Expr) : Except Err Int :=
  match E emptyEnv with
  | .error err => .error err
  | .ok v =>
      match (if v.typeIsInteger then Except.ok v else v.castAsInteger) with
      | .error err => .error err
      | .ok w => .ok w.toInt

/-- The step function returned by `TakeOperator.Op`, with the closure
variable `count` made an explicit state argument: if `count < n`, increment
and pass the environment through; otherwise return `ErrStreamClosed`. -/
def takeStep (n : Int) (count : Int) (env : Environment) : Int × OpResult :=
  if count < n then (count + 1, .ok (some env)) else (count, .error .streamClosed)

/-- Construction phase of `SkipOperator.Op`: identical count evaluation to
`TakeOperator.Op`. -/
def SkipOperator.Op (E : Expr) : Except Err Int :=
  match E emptyEnv with
  | .error err => .error err
  | .ok v =>
      match (if v.typeIsInteger then Except.ok v else v.castAsInteger) with
      | .error err => .error err
      | .ok w => .ok w.toInt

/-- The step function returned by `SkipOperator.Op`, with the closure
variable `skipped` explicit: while `skipped < n`, increment and suppress the
item; afterwards pass every environment through unchanged. -/
def skipStep (n : Int) (skipped : Int) (env : Environment) : Int × OpResult :=
  if skipped < n then (skipped + 1, .ok none) else (skipped, .ok (some env))

def groupEnvKey : String := "_group"

def accEnvKey : String := "_acc"

/-- `GroupByOperator.Op`'s step function: evaluate the group key, bind it
under `groupEnvKey` in the (reused) output frame, and set the frame's outer
reference to the incoming environment.  Only `groupEnvKey` is ever set in
the frame and its current value never is, so the frame's contents after each
invocation are exactly `⟨[(groupEnvKey, v)], none, some env⟩`. -/
def groupByStep (E : Expr) (env : Environment) : OpResult :=
  match E env with
  | .error err => .error err
  | .ok v => .ok (some (.mk [(groupEnvKey, v)] none (some env)))

/-- Modelled from the spec: a `Stream` sub-stream as seen by `Reduce`
(spec section 4.2): `Iterate` delivers a finite sequence of environments to
the callback in order, and the traversal itself may fail with an error
(`terminal`) after the delivered items. -/
structure SubStream where
  items : List Environment
  terminal : Option Err

/-- Modelled from the spec: the callback-threading core of `Stream.Iterate`.
The callback mutates closure state (here threaded explicitly); its first
error aborts the traversal. -/
def iterateEnvs (f : Environment → Environment → Except Err Environment) :
    Environment → List Environment → Except Err Environment
  | st, [] => .ok st
  | st, e :: rest =>
      match f st e with
      | .error err => .error err
      | .ok st2 => iterateEnvs f st2 rest

/-- Modelled from the spec: `Stream.Iterate` on a sub-stream — deliver every
item to the callback, then surface any traversal error. -/
def SubStream.iterate (s : SubStream) (f : Environment → Environment → Except Err Environment)
    (st : Environment) : Except Err Environment :=
  match iterateEnvs f st s.items with
  | .error err => .error err
  | .ok st2 =>
      match s.terminal with
      | none => .ok st2
      | some err => .error err

/-- The body of the `Iterate` callback inside `ReduceOperator.Op`: point the
accumulator frame's outer reference at the incoming environment, evaluate
the accumulator expression on it, and overwrite the `accEnvKey` binding. -/
def reduceBody (Acc : Expr) (newEnv env : Environment) : Except Err Environment :=
  let ne := newEnv.setOuter (some env)
  match Acc ne with
  | .error err => .error err
  | .ok v => .ok (ne.set accEnvKey v)

/-- `ReduceOperator.Op`: evaluate the seed on the still-empty accumulator
frame, bind it under `accEnvKey`, eagerly drain the sub-stream through
`reduceBody`, and return the step function that copies the final accumulator
into the frame's current-value slot and points its outer reference at the
caller-supplied environment.  (`Get` in the step function ignores its
error; a missing binding yields the zero `Value`, modelled as `nullV`.) -/
def ReduceOperator.Op (Seed Acc : Expr) (sub : SubStream) :
    Except Err (Environment → Environment) :=
  match Seed emptyEnv with
  | .error err => .error err
  | .ok seed =>
      match sub.iterate (reduceBody Acc) (emptyEnv.set accEnvKey seed) with
      | .error err => .error err
      | .ok finalEnv =>
          .ok (fun env =>
            let v := (finalEnv.get accEnvKey).getD .nullV
            (finalEnv.setCurrentValue v).setOuter (some env))

/-- Outcome of driving one stateful step function over a source sequence:
the environments it passed through (in order), the final closure state, and
the error (if any) that aborted the traversal. -/
structure RunOut where
  outs : List Environment
  final : Int
  err : Option Err

/-- Modelled from the spec: the traversal driver of `Stream.iterate`
(spec section 4.2) specialised to a single counter-carrying operator: thread
the step function over the source items, keep passed environments, skip
suppressed ones, and stop at the first error. -/
def runCounted (step : Int → Environment → Int × OpResult) :
    Int → List Environment → RunOut
  | c, [] => ⟨[], c, none⟩
  | c, e :: rest =>
      match step c e with
      | (c2, .error err) => ⟨[], c2, some err⟩
      | (c2, .ok none) => runCounted step c2 rest
      | (c2, .ok (some o)) =>
          let r := runCounted step c2 rest
          ⟨o :: r.outs, r.final, r.err⟩

/-- Modelled from the spec: the same traversal driver for a stateless step
function (Map, Filter): outputs in order plus the aborting error, if any. -/
def runStateless (step : Environment → OpResult) :
    List Environment → List Environment × Option Err
  | [] => ([], none)
  | e :: rest =>
      match step e with
      | .error err => ([], some err)
      | .ok none => runStateless step rest
      | .ok (some o) =>
          let r := runStateless step rest
          (o :: r.1, r.2)

/-! Sample data for witnesses: three source environments and constant count
expressions. -/

def envA : Environment := .mk [] (some (.intV 1)) none

def envB : Environment := .mk [] (some (.intV 2)) none

def envC : Environment := .mk [] (some (.intV 3)) none

def sampleS : List Environment := [envA, envB, envC]

def constTwo : Expr := fun _ => .ok (.intV 2)

/-! Helper lemmas about the traversal of `takeStep` and `skipStep`. -/

theorem runCounted_takeStep (n : Int) (S : List Environment) :
    ∀ c : Int, c ≤ n →
      (runCounted (takeStep n) c S).outs = S.take (n - c).toNat ∧
      ((runCounted (takeStep n) c S).err = some .streamClosed ↔ (n - c : Int) < S.length) := by
  induction S with
  | nil =>
      intro c hc
      refine ⟨by rw [List.take_nil]; rfl, ?_⟩
      constructor
      · intro h
        exact absurd h (by simp [runCounted])
      · intro h
        rw [List.length_nil] at h
        omega
  | cons e rest ih =>
      intro c hc
      by_cases h : c < n
      · obtain ⟨ho, he⟩ := ih (c + 1) (by omega)
        have hrun : runCounted (takeStep n) c (e :: rest) =
            ⟨e :: (runCounted (takeStep n) (c + 1) rest).outs,
             (runCounted (takeStep n) (c + 1) rest).final,
             (runCounted (takeStep n) (c + 1) rest).err⟩ := by
          simp [runCounted, takeStep, if_pos h]
        rw [hrun]
        refine ⟨?_, ?_⟩
        · show e :: (runCounted (takeStep n) (c + 1) rest).outs =
            List.take (n - c).toNat (e :: rest)
          have hnat : (n - c).toNat = (n - (c + 1)).toNat + 1 := by omega
          rw [ho, hnat, List.take_succ_cons]
        · show (runCounted (takeStep n) (c + 1) rest).err = some .streamClosed ↔
            (n - c : Int) < (e :: rest).length
          rw [List.length_cons]
          constructor
          · intro hh
            have := he.mp hh
            push_cast at this ⊢
            omega
          · intro hh
            apply he.mpr
            push_cast at hh ⊢
            omega
      · have hrun : runCounted (takeStep n) c (e :: rest) =
            ⟨[], c, some .streamClosed⟩ := by
          simp [runCounted, takeStep, if_neg h]
        rw [hrun]
        have hz : (n - c).toNat = 0 := by omega
        refine ⟨by rw [hz, List.take_zero], ?_⟩
        constructor
        · intro _
          rw [List.length_cons]
          push_cast
          omega
        · intro _
          rfl

theorem runCounted_takeStep_closed (n c : Int) (S : List Environment) (hc : n ≤ c) :
    (runCounted (takeStep n) c S).outs = [] ∧ (runCounted (takeStep n) c S).final = c := by
  cases S with
  | nil => exact ⟨rfl, rfl⟩
  | cons e rest =>
      have hrun : runCounted (takeStep n) c (e :: rest) =
          ⟨[], c, some .streamClosed⟩ := by
        simp [runCounted, takeStep, if_neg (by omega : ¬ c < n)]
      rw [hrun]
      exact ⟨rfl, rfl⟩

theorem runCounted_skipStep_done (n : Int) (S : List Environment) :
    ∀ c : Int, n ≤ c → runCounted (skipStep n) c S = ⟨S, c, none⟩ := by
  induction S with
  | nil => intro c _; rfl
  | cons e rest ih =>
      intro c hc
      simp only [runCounted, skipStep, if_neg (by omega : ¬ c < n)]
      rw [ih c hc]

theorem runCounted_skipStep (n : Int) (S : List Environment) :
    ∀ c : Int, c ≤ n →
      (runCounted (skipStep n) c S).outs = S.drop (n - c).toNat ∧
      (runCounted (skipStep n) c S).err = none := by
  induction S with
  | nil =>
      intro c _
      exact ⟨(List.drop_nil).symm, rfl⟩
  | cons e rest ih =>
      intro c hc
      by_cases h : c < n
      · obtain ⟨ho, he⟩ := ih (c + 1) (by omega)
        have hrun : runCounted (skipStep n) c (e :: rest) =
            runCounted (skipStep n) (c + 1) rest := by
          simp [runCounted, skipStep, if_pos h]
        rw [hrun, ho]
        refine ⟨?_, he⟩
        have hnat : (n - c).toNat = (n - (c + 1)).toNat + 1 := by omega
        rw [hnat, List.drop_succ_cons]
      · have hrun : runCounted (skipStep n) c (e :: rest) =
            ⟨e :: (runCounted (skipStep n) c rest).outs,
             (runCounted (skipStep n) c rest).final,
             (runCounted (skipStep n) c rest).err⟩ := by
          simp [runCounted, skipStep, if_neg h]
        rw [hrun, runCounted_skipStep_done n rest c (by omega)]
        have hz : (n - c).toNat = 0 := by omega
        rw [hz, List.drop_zero]
        exact ⟨rfl, rfl⟩

/-- C2: the step function built by `TakeOperator.Op` for a count expression
evaluating to the non-negative integer `n` passes through exactly the first
`min(n, |S|)` environments of the source `S`, in order (`S.take n.toNat`),
and the traversal ends with the `streamClosed` signal exactly when the
source still had an item to offer after the `n`-th passed one. -/
theorem take_yields_first_min (E : Expr) (n : Int) (S : List Environment)
    (hE : E emptyEnv = .ok (.intV n)) (hn : 0 ≤ n) :
    TakeOperator.Op E = .ok n ∧
    (runCounted (takeStep n) 0 S).outs = S.take n.toNat ∧
    ((runCounted (takeStep n) 0 S).err = some .streamClosed ↔ (n : Int) < S.length) := by
  obtain ⟨ho, he⟩ := runCounted_takeStep n S 0 hn
  refine ⟨?_, ?_, ?_⟩
  · simp [TakeOperator.Op, hE, Value.typeIsInteger, Value.toInt]
  · simpa using ho
  · simpa using he

/-- Witness for C2: `take(2)` over a three-item source passes exactly the
first two items and closes the stream. -/
theorem take_yields_first_min_witness :
    TakeOperator.Op constTwo = .ok 2 ∧
    (runCounted (takeStep 2) 0 sampleS).outs = sampleS.take (Int.toNat 2) ∧
    ((runCounted (takeStep 2) 0 sampleS).err = some .streamClosed ↔ (2 : Int) < sampleS.length) :=
  take_yields_first_min constTwo 2 sampleS rfl (by decide)

/-- C3: the step function built by `SkipOperator.Op` for a count expression
evaluating to the non-negative integer `n` suppresses (returns a null
environment for) exactly the first `min(n, |S|)` environments — each
suppressed invocation returns `(counter + 1, ok none)` — and passes every
subsequent environment through unchanged, so the outputs are `S.drop
n.toNat` in order and the traversal ends without error.  (For `n ≤ 0`,
where the `min(n, |S|)` phrasing degenerates, see the claim on nonpositive
counts.) -/
theorem skip_removes_first_min (E : Expr) (n : Int) (S : List Environment)
    (hE : E emptyEnv = .ok (.intV n)) (hn : 0 ≤ n) :
    SkipOperator.Op E = .ok n ∧
    (∀ c env, c < n → skipStep n c env = (c + 1, .ok none)) ∧
    (∀ c env, n ≤ c → skipStep n c env = (c, .ok (some env))) ∧
    (runCounted (skipStep n) 0 S).outs = S.drop n.toNat ∧
    (runCounted (skipStep n) 0 S).err = none := by
  obtain ⟨ho, he⟩ := runCounted_skipStep n S 0 hn
  refine ⟨?_, ?_, ?_, ?_, he⟩
  · simp [SkipOperator.Op, hE, Value.typeIsInteger, Value.toInt]
  · intro c env hc
    simp [skipStep, if_pos hc]
  · intro c env hc
    simp [skipStep, if_neg (by omega : ¬ c < n)]
  · simpa using ho

/-- Witness for C3: `skip(2)` over a three-item source suppresses the first
two items and passes the third through. -/
theorem skip_removes_first_min_witness :
    SkipOperator.Op constTwo = .ok 2 ∧
    (∀ c env, c < 2 → skipStep 2 c env = (c + 1, .ok none)) ∧
    (∀ c env, (2 : Int) ≤ c → skipStep 2 c env = (c, .ok (some env))) ∧
    (runCounted (skipStep 2) 0 sampleS).outs = sampleS.drop (Int.toNat 2) ∧
    (runCounted (skipStep 2) 0 sampleS).err = none :=
  skip_removes_first_min constTwo 2 sampleS rfl (by decide)

/-- C8: once a `takeStep` closure has answered `streamClosed`, its counter no
longer changes, every subsequent invocation answers `streamClosed` again,
and driving a whole second traversal through the exhausted closure passes
zero further items. -/
theorem take_closed_absorbing (n c : Int) (env : Environment) (S : List Environment)
    (h : (takeStep n c env).2 = .error .streamClosed) :
    takeStep n c env = (c, .error .streamClosed) ∧
    (∀ env2, takeStep n c env2 = (c, .error .streamClosed)) ∧
    (runCounted (takeStep n) c S).outs = [] ∧
    (runCounted (takeStep n) c S).final = c := by
  have hc : ¬ c < n := by
    intro hlt
    rw [takeStep, if_pos hlt] at h
    exact absurd h (by simp)
  obtain ⟨ho, hf⟩ := runCounted_takeStep_closed n c S (by omega)
  refine ⟨?_, ?_, ho, hf⟩
  · rw [takeStep, if_neg hc]
  · intro env2
    rw [takeStep, if_neg hc]

/-- Witness for C8: a `take(2)` closure whose counter has reached 2 answers
`streamClosed` and lets a fresh three-item traversal pass zero items. -/
theorem take_closed_absorbing_witness :
    takeStep 2 2 envA = (2, .error .streamClosed) ∧
    (∀ env2, takeStep 2 2 env2 = (2, .error .streamClosed)) ∧
    (runCounted (takeStep 2) 2 sampleS).outs = [] ∧
    (runCounted (takeStep 2) 2 sampleS).final = 2 :=
  take_closed_absorbing 2 2 envA sampleS rfl

/-- C9: for a count `n ≤ 0`, the `takeStep` closure answers `streamClosed`
on its very first invocation and a traversal passes no items at all, while
the `skipStep` closure passes every environment through unchanged from the
first invocation on, suppressing nothing. -/
theorem nonpositive_count_take_skip (n : Int) (env : Environment) (S : List Environment)
    (hn : n ≤ 0) :
    takeStep n 0 env = (0, .error .streamClosed) ∧
    (runCounted (takeStep n) 0 S).outs = [] ∧
    skipStep n 0 env = (0, .ok (some env)) ∧
    runCounted (skipStep n) 0 S = ⟨S, 0, none⟩ := by
  refine ⟨?_, ?_, ?_, runCounted_skipStep_done n S 0 (by omega)⟩
  · rw [takeStep, if_neg (by omega : ¬ (0 : Int) < n)]
  · exact (runCounted_takeStep_closed n 0 S (by omega)).1
  · rw [skipStep, if_neg (by omega : ¬ (0 : Int) < n)]

/-- Witness for C9 at `n = 0` over a three-item source. -/
theorem nonpositive_count_take_skip_witness :
    takeStep 0 0 envA = (0, .error .streamClosed) ∧
    (runCounted (takeStep 0) 0 sampleS).outs = [] ∧
    skipStep 0 0 envA = (0, .ok (some envA)) ∧
    runCounted (skipStep 0) 0 sampleS = ⟨sampleS, 0, none⟩ :=
  nonpositive_count_take_skip 0 envA sampleS (by decide)

/-! Filter: the composed evaluate-then-truthiness pipeline of one filter
step, and its action on a whole source. -/

def evalTruthy (E : Expr) (env : Environment) : Except Err Bool :=
  match E env with
  | .error err => .error err
  | .ok v => v.isTruthy

/-- The Boolean decision a filter step makes on an environment whose
evaluation and truthiness conversion both succeed. -/
def truthyOk (E : Expr) (env : Environment) : Bool :=
  match evalTruthy E env with
  | .ok b => b
  | .error _ => false

theorem filterStep_of_ok (E : Expr) (env : Environment) (b : Bool)
    (hx : evalTruthy E env = .ok b) :
    filterStep E env = if b then .ok (some env) else .ok none := by
  rw [evalTruthy] at hx
  cases hE : E env with
  | error err =>
      rw [hE] at hx
      exact absurd hx (by simp)
  | ok v =>
      rw [hE] at hx
      have hx2 : v.isTruthy = .ok b := hx
      cases b with
      | true => simp [filterStep, hE, hx2]
      | false => simp [filterStep, hE, hx2]

theorem filterStep_of_error (E : Expr) (env : Environment) (err : Err)
    (hx : evalTruthy E env = .error err) :
    filterStep E env = .error err := by
  rw [evalTruthy] at hx
  cases hE : E env with
  | error err2 =>
      rw [hE] at hx
      have hx2 : (Except.error err2 : Except Err Bool) = .error err := hx
      have : err2 = err := by
        injection hx2
      subst this
      simp [filterStep, hE]
  | ok v =>
      rw [hE] at hx
      have hx2 : v.isTruthy = .error err := hx
      simp [filterStep, hE, hx2]

theorem runStateless_filterStep (E : Expr) (S : List Environment)
    (h : ∀ env ∈ S, ∃ b, evalTruthy E env = .ok b) :
    runStateless (filterStep E) S = (S.filter (truthyOk E), none) := by
  induction S with
  | nil => rfl
  | cons e rest ih =>
      obtain ⟨b, hb⟩ := h e (by simp)
      have hrest := ih (fun env hm => h env (by simp [hm]))
      have hok : truthyOk E e = b := by
        rw [truthyOk, hb]
      cases b with
      | true =>
          have hstep : filterStep E e = .ok (some e) := by
            rw [filterStep_of_ok E e true hb]
            rfl
          have hrun : runStateless (filterStep E) (e :: rest) =
              (e :: (runStateless (filterStep E) rest).1,
               (runStateless (filterStep E) rest).2) := by
            simp [runStateless, hstep]
          rw [hrun, hrest, List.filter_cons_of_pos (by rw [hok])]
      | false =>
          have hstep : filterStep E e = .ok none := by
            rw [filterStep_of_ok E e false hb]
            rfl
          have hrun : runStateless (filterStep E) (e :: rest) =
              runStateless (filterStep E) rest := by
            simp [runStateless, hstep]
          rw [hrun, hrest, List.filter_cons_of_neg (by rw [hok]; exact Bool.false_ne_true)]

/-- C4: the filter step yields exactly the subsequence of the source on
which the predicate evaluates truthy, in order: a truthy input passes the
very same incoming environment through (`ok (some env)`), a falsy input is
suppressed (`ok none`), an evaluation error or a truthiness-conversion
error is returned as that error, and a traversal on which every item
evaluates cleanly outputs `S.filter (truthyOk E)` with no error. -/
theorem filter_truthy_subsequence (E : Expr) (S : List Environment)
    (h : ∀ env ∈ S, ∃ b, evalTruthy E env = .ok b) :
    (∀ env v, E env = .ok v → v.isTruthy = .ok true → filterStep E env = .ok (some env)) ∧
    (∀ env v, E env = .ok v → v.isTruthy = .ok false → filterStep E env = .ok none) ∧
    (∀ env err, E env = .error err → filterStep E env = .error err) ∧
    (∀ env v err, E env = .ok v → v.isTruthy = .error err → filterStep E env = .error err) ∧
    runStateless (filterStep E) S = (S.filter (truthyOk E), none) := by
  refine ⟨?_, ?_, ?_, ?_, runStateless_filterStep E S h⟩
  · intro env v hv ht
    have : evalTruthy E env = .ok true := by
      rw [evalTruthy, hv]
      exact ht
    rw [filterStep_of_ok E env true this]
    rfl
  · intro env v hv ht
    have : evalTruthy E env = .ok false := by
      rw [evalTruthy, hv]
      exact ht
    rw [filterStep_of_ok E env false this]
    rfl
  · intro env err hv
    exact filterStep_of_error E env err (by rw [evalTruthy, hv])
  · intro env v err hv ht
    apply filterStep_of_error E env err
    rw [evalTruthy, hv]
    exact ht

/-- A sample predicate for the filter witness: true exactly on environments
whose current value is the integer 2. -/
def predTwo : Expr := fun env => .ok (.boolV (decide (env.current = some (.intV 2))))

/-- Witness for C4: filtering the three-item source with `predTwo` keeps
exactly the environment whose current value is 2. -/
theorem filter_truthy_subsequence_witness :
    (∀ env v, predTwo env = .ok v → v.isTruthy = .ok true →
      filterStep predTwo env = .ok (some env)) ∧
    (∀ env v, predTwo env = .ok v → v.isTruthy = .ok false →
      filterStep predTwo env = .ok none) ∧
    (∀ env err, predTwo env = .error err → filterStep predTwo env = .error err) ∧
    (∀ env v err, predTwo env = .ok v → v.isTruthy = .error err →
      filterStep predTwo env = .error err) ∧
    runStateless (filterStep predTwo) sampleS = (sampleS.filter (truthyOk predTwo), none) :=
  filter_truthy_subsequence predTwo sampleS (fun _ _ => ⟨_, rfl⟩)

/-! Map: the value a map step writes into its output frame. -/

def mapVal (E : Expr) (env : Environment) : Value :=
  match E env with
  | .ok v => v
  | .error _ => .nullV

theorem runStateless_mapStep (E : Expr) (S : List Environment)
    (h : ∀ env ∈ S, ∃ v, E env = .ok v) :
    runStateless (mapStep E) S =
      (S.map (fun env => .mk [] (some (mapVal E env)) (some env)), none) := by
  induction S with
  | nil => rfl
  | cons e rest ih =>
      obtain ⟨v, hv⟩ := h e (by simp)
      have hrest := ih (fun env hm => h env (by simp [hm]))
      have hstep : mapStep E e = .ok (some (.mk [] (some v) (some e))) := by
        simp [mapStep, hv]
      have hval : mapVal E e = v := by
        rw [mapVal, hv]
      have hrun : runStateless (mapStep E) (e :: rest) =
          ((Environment.mk [] (some v) (some e)) :: (runStateless (mapStep E) rest).1,
           (runStateless (mapStep E) rest).2) := by
        simp [runStateless, hstep]
      rw [hrun, hrest, List.map_cons, hval]

/-- C5: the map step yields exactly one output per input — on success the
output frame's current value is the evaluation result and its outer
reference is the incoming environment; an evaluation error is propagated
and that item produces no output; over a source on which every evaluation
succeeds, the outputs are the item-wise image of the source (same length,
same order, never filtered). -/
theorem map_one_output_per_input (E : Expr) (S : List Environment)
    (h : ∀ env ∈ S, ∃ v, E env = .ok v) :
    (∀ env v, E env = .ok v →
      mapStep E env = .ok (some (.mk [] (some v) (some env)))) ∧
    (∀ env err, E env = .error err → mapStep E env = .error err) ∧
    runStateless (mapStep E) S =
      (S.map (fun env => .mk [] (some (mapVal E env)) (some env)), none) ∧
    (runStateless (mapStep E) S).1.length = S.length := by
  have hrun := runStateless_mapStep E S h
  refine ⟨?_, ?_, hrun, ?_⟩
  · intro env v hv
    simp [mapStep, hv]
  · intro env err hv
    simp [mapStep, hv]
  · rw [hrun]
    exact List.length_map S _

/-- A sample mapping expression for the map witness: multiply the current
integer by ten. -/
def timesTen : Expr := fun env =>
  .ok (match env.current with
       | some (.intV k) => .intV (k * 10)
       | _ => .nullV)

/-- Witness for C5: mapping `timesTen` over the three-item source yields
three output frames carrying 10, 20, 30. -/
theorem map_one_output_per_input_witness :
    (∀ env v, timesTen env = .ok v →
      mapStep timesTen env = .ok (some (.mk [] (some v) (some env)))) ∧
    (∀ env err, timesTen env = .error err → mapStep timesTen env = .error err) ∧
    runStateless (mapStep timesTen) sampleS =
      (sampleS.map (fun env => .mk [] (some (mapVal timesTen env)) (some env)), none) ∧
    (runStateless (mapStep timesTen) sampleS).1.length = sampleS.length :=
  map_one_output_per_input timesTen sampleS (fun _ _ => ⟨_, rfl⟩)

/-- C7: Take and Skip resolve their count at construction only — the
construction result depends solely on the count expression's value on the
empty environment (so two expressions agreeing there construct identical
operators, and the per-item step functions `takeStep n` / `skipStep n` are
functions of the resolved integer alone); an integer result is adopted as
is, and a non-integer result that cannot be cast to an integer aborts
construction with the conversion error, as does an evaluation error. -/
theorem count_evaluated_once_at_construction (E1 E2 : Expr) :
    (E1 emptyEnv = E2 emptyEnv →
      TakeOperator.Op E1 = TakeOperator.Op E2 ∧ SkipOperator.Op E1 = SkipOperator.Op E2) ∧
    (∀ n : Int, E1 emptyEnv = .ok (.intV n) →
      TakeOperator.Op E1 = .ok n ∧ SkipOperator.Op E1 = .ok n) ∧
    (∀ v err, E1 emptyEnv = .ok v → v.typeIsInteger = false → v.castAsInteger = .error err →
      TakeOperator.Op E1 = .error err ∧ SkipOperator.Op E1 = .error err) ∧
    (∀ err, E1 emptyEnv = .error err →
      TakeOperator.Op E1 = .error err ∧ SkipOperator.Op E1 = .error err) := by
  refine ⟨?_, ?_, ?_, ?_⟩
  · intro hE
    constructor
    · simp only [TakeOperator.Op, hE]
    · simp only [SkipOperator.Op, hE]
  · intro n hE
    constructor
    · simp [TakeOperator.Op, hE, Value.typeIsInteger, Value.toInt]
    · simp [SkipOperator.Op, hE, Value.typeIsInteger, Value.toInt]
  · intro v err hE htype hcast
    constructor
    · simp [TakeOperator.Op, hE, htype, hcast]
    · simp [SkipOperator.Op, hE, htype, hcast]
  · intro err hE
    constructor
    · simp [TakeOperator.Op, hE]
    · simp [SkipOperator.Op, hE]

/-- A second, syntactically different expression agreeing with `constTwo`
on the empty environment. -/
def constTwoB : Expr := fun _ => .ok (.intV (1 + 1))

/-- A count expression evaluating to null, which cannot be cast. -/
def nullCount : Expr := fun _ => .ok .nullV

/-- Witness for C7: agreement on the empty environment yields identical
constructions, and a null count aborts both constructions with the
conversion error. -/
theorem count_evaluated_once_witness :
    (TakeOperator.Op constTwo = TakeOperator.Op constTwoB ∧
     SkipOperator.Op constTwo = SkipOperator.Op constTwoB) ∧
    (TakeOperator.Op nullCount = .error (.failure "cannot cast null to integer") ∧
     SkipOperator.Op nullCount = .error (.failure "cannot cast null to integer")) :=
  ⟨(count_evaluated_once_at_construction constTwo constTwoB).1 rfl,
   (count_evaluated_once_at_construction nullCount constTwoB).2.2.1 .nullV
     (.failure "cannot cast null to integer") rfl rfl rfl⟩

/-! Reduce: the accumulator frame threaded through the eager sub-stream
drain, and the specification-level left fold it computes. -/

/-- The accumulator frame as the `Iterate` callback sees it: the single
`accEnvKey` binding, no current value, outer reference on the sub-stream
item being folded. -/
def accFrame (a : Value) (env : Environment) : Environment :=
  .mk [(accEnvKey, a)] none (some env)

/-- The left-to-right fold the drain performs: starting from the seed,
evaluate the accumulator expression on the frame for each sub-stream item
in order, stopping at the first error.  On `[v1, v2, v3]` this is exactly
`acc(acc(acc(seed, v1), v2), v3)`. -/
def specFold (Acc : Expr) : Value → List Environment → Except Err Value
  | a, [] => .ok a
  | a, e :: rest =>
      match Acc (accFrame a e) with
      | .error err => .error err
      | .ok v => specFold Acc v rest

theorem reduceBody_accFrame (Acc : Expr) (a : Value) (o : Option Environment) (e : Environment) :
    reduceBody Acc (.mk [(accEnvKey, a)] none o) e =
      match Acc (accFrame a e) with
      | .error err => .error err
      | .ok v => .ok (.mk [(accEnvKey, v)] none (some e)) := by
  have hA2 : Acc ((Environment.mk [(accEnvKey, a)] none o).setOuter (some e)) =
      Acc (accFrame a e) := rfl
  have hA3 : Acc (Environment.mk [(accEnvKey, a)] none (some e)) = Acc (accFrame a e) := rfl
  cases hA : Acc (accFrame a e) with
  | error err => simp [reduceBody, hA2, hA3, hA]
  | ok v => simp [reduceBody, hA2, hA3, hA, Environment.setOuter, Environment.set, setAssoc]

theorem iterateEnvs_reduceBody (Acc : Expr) (items : List Environment) :
    ∀ (a : Value) (o : Option Environment),
      (∀ err, specFold Acc a items = .error err →
        iterateEnvs (reduceBody Acc) (.mk [(accEnvKey, a)] none o) items = .error err) ∧
      (∀ v, specFold Acc a items = .ok v →
        ∃ o2, iterateEnvs (reduceBody Acc) (.mk [(accEnvKey, a)] none o) items =
          .ok (.mk [(accEnvKey, v)] none o2)) := by
  induction items with
  | nil =>
      intro a o
      constructor
      · intro err h
        exact absurd h (by simp [specFold])
      · intro v h
        have hv : a = v := by
          have h2 : (Except.ok a : Except Err Value) = .ok v := h
          injection h2
        subst hv
        exact ⟨o, rfl⟩
  | cons e rest ih =>
      intro a o
      cases hA : Acc (accFrame a e) with
      | error err0 =>
          have hstep : iterateEnvs (reduceBody Acc) (.mk [(accEnvKey, a)] none o) (e :: rest) =
              .error err0 := by
            simp [iterateEnvs, reduceBody_accFrame, hA]
          have hfold : specFold Acc a (e :: rest) = .error err0 := by
            simp [specFold, hA]
          constructor
          · intro err h
            rw [hfold] at h
            have h2 : err0 = err := by
              injection h
            rw [hstep, h2]
          · intro v h
            rw [hfold] at h
            exact absurd h (by simp)
      | ok v0 =>
          have hstep : iterateEnvs (reduceBody Acc) (.mk [(accEnvKey, a)] none o) (e :: rest) =
              iterateEnvs (reduceBody Acc) (.mk [(accEnvKey, v0)] none (some e)) rest := by
            simp [iterateEnvs, reduceBody_accFrame, hA]
          have hfold : specFold Acc a (e :: rest) = specFold Acc v0 rest := by
            simp [specFold, hA]
          rw [hstep, hfold]
          exact ih v0 (some e)

/-- The successful construction of `ReduceOperator.Op`: the drain computes
the left fold `specFold`, the accumulator frame retains the final value
under `accEnvKey`, and the returned step function copies it into the
current-value slot and hangs the frame off the caller's environment. -/
theorem reduceOp_ok (Seed Acc : Expr) (items : List Environment) (s a : Value)
    (hs : Seed emptyEnv = .ok s) (hf : specFold Acc s items = .ok a) :
    ReduceOperator.Op Seed Acc ⟨items, none⟩ =
      .ok (fun env => .mk [(accEnvKey, a)] (some a) (some env)) := by
  obtain ⟨o2, heq⟩ := (iterateEnvs_reduceBody Acc items s none).2 a hf
  have hstart : emptyEnv.set accEnvKey s = .mk [(accEnvKey, s)] none none := rfl
  have hsub : SubStream.iterate ⟨items, none⟩ (reduceBody Acc) (emptyEnv.set accEnvKey s) =
      .ok (.mk [(accEnvKey, a)] none o2) := by
    simp only [SubStream.iterate]
    rw [hstart, heq]
  simp only [ReduceOperator.Op, hs]
  rw [hsub]
  rfl

/-- C1: for every seed expression, accumulator expression and sub-stream,
a successful `ReduceOperator.Op` yields a step function whose output's
current value is the left-to-right fold `specFold Acc s items` of the
ENTIRE sub-stream into a single accumulator — the drain loop never
branches on the `groupEnvKey` binding, which is why the theorem holds for
arbitrary item lists, including items carrying distinct upstream `_group`
values; on an empty sub-stream the fold is the evaluated seed itself, and
on `[v1, v2, v3]` it unfolds definitionally to
`acc(acc(acc(seed, v1), v2), v3)`. -/
theorem reduce_folds_entire_substream (Seed Acc : Expr) (items : List Environment) (s a : Value)
    (hs : Seed emptyEnv = .ok s) (hf : specFold Acc s items = .ok a) :
    (∃ f, ReduceOperator.Op Seed Acc ⟨items, none⟩ = .ok f ∧
      ∀ env, (f env).current = some a ∧ (f env).outer = some env) ∧
    (items = [] → a = s) := by
  constructor
  · exact ⟨_, reduceOp_ok Seed Acc items s a hs hf, fun _ => ⟨rfl, rfl⟩⟩
  · intro hempty
    subst hempty
    have h2 : (Except.ok s : Except Err Value) = .ok a := hf
    have : s = a := by
      injection h2
    exact this.symm

/-- The seed expression `0` for the reduce witnesses. -/
def zeroSeed : Expr := fun _ => .ok (.intV 0)

/-- The accumulator expression for the reduce witnesses: add the current
integer of the sub-stream item (the frame's outer environment) to the
running accumulator read from `accEnvKey`. -/
def sumAcc : Expr := fun env =>
  match env.get accEnvKey, env.outer with
  | some (.intV acc0), some o =>
      match o.current with
      | some (.intV k) => .ok (.intV (acc0 + k))
      | _ => .error (.failure "no current integer")
  | _, _ => .error (.failure "no accumulator")

/-- Sub-stream items annotated with differing `_group` values (groups 1, 2
and 1 again), to exercise that the drain folds across group boundaries. -/
def envGA : Environment := .mk [(groupEnvKey, .intV 1)] (some (.intV 1)) none

def envGB : Environment := .mk [(groupEnvKey, .intV 2)] (some (.intV 2)) none

def envGC : Environment := .mk [(groupEnvKey, .intV 1)] (some (.intV 3)) none

def groupedS : List Environment := [envGA, envGB, envGC]

/-- Witness for C1: summing over three items split across two `_group`
values still folds everything into the single accumulator 0+1+2+3 = 6. -/
theorem reduce_folds_entire_substream_witness :
    (∃ f, ReduceOperator.Op zeroSeed sumAcc ⟨groupedS, none⟩ = .ok f ∧
      ∀ env, (f env).current = some (.intV 6) ∧ (f env).outer = some env) ∧
    (groupedS = [] → Value.intV 6 = .intV 0) :=
  reduce_folds_entire_substream zeroSeed sumAcc groupedS (.intV 0) (.intV 6) rfl rfl

/-- C6: every construction-time failure of `ReduceOperator.Op` — a failing
seed evaluation, an accumulator evaluation failure on some drained item, or
an error from the sub-stream traversal itself — is returned as the error of
`Op` and no step function is produced. -/
theorem reduce_construction_errors (Seed Acc : Expr) (items : List Environment)
    (term : Option Err) :
    (∀ err, Seed emptyEnv = .error err →
      ReduceOperator.Op Seed Acc ⟨items, term⟩ = .error err) ∧
    (∀ s err, Seed emptyEnv = .ok s → specFold Acc s items = .error err →
      ReduceOperator.Op Seed Acc ⟨items, term⟩ = .error err) ∧
    (∀ s a err, Seed emptyEnv = .ok s → specFold Acc s items = .ok a → term = some err →
      ReduceOperator.Op Seed Acc ⟨items, term⟩ = .error err) := by
  refine ⟨?_, ?_, ?_⟩
  · intro err hs
    rw [ReduceOperator.Op, hs]
  · intro s err hs hf
    have hiter := (iterateEnvs_reduceBody Acc items s none).1 err hf
    have hstart : emptyEnv.set accEnvKey s = .mk [(accEnvKey, s)] none none := rfl
    have hsub : SubStream.iterate ⟨items, term⟩ (reduceBody Acc) (emptyEnv.set accEnvKey s) =
        .error err := by
      simp only [SubStream.iterate]
      rw [hstart, hiter]
    simp only [ReduceOperator.Op, hs]
    rw [hsub]
  · intro s a err hs hf hterm
    obtain ⟨o2, heq⟩ := (iterateEnvs_reduceBody Acc items s none).2 a hf
    have hstart : emptyEnv.set accEnvKey s = .mk [(accEnvKey, s)] none none := rfl
    have hsub : SubStream.iterate ⟨items, term⟩ (reduceBody Acc) (emptyEnv.set accEnvKey s) =
        .error err := by
      simp only [SubStream.iterate]
      rw [hstart, heq, hterm]
    simp only [ReduceOperator.Op, hs]
    rw [hsub]

/-- A seed expression whose evaluation fails. -/
def badSeed : Expr := fun _ => .error (.failure "seed boom")

/-- Witness for C6: a failing seed, a failing accumulator evaluation (on an
item with no current integer), and a failing sub-stream traversal each
abort construction with that error. -/
theorem reduce_construction_errors_witness :
    ReduceOperator.Op badSeed sumAcc ⟨sampleS, none⟩ = .error (.failure "seed boom") ∧
    ReduceOperator.Op zeroSeed sumAcc ⟨[emptyEnv], none⟩ =
      .error (.failure "no current integer") ∧
    ReduceOperator.Op zeroSeed sumAcc ⟨sampleS, some (.failure "traversal boom")⟩ =
      .error (.failure "traversal boom") :=
  ⟨(reduce_construction_errors badSeed sumAcc sampleS none).1 _ rfl,
   (reduce_construction_errors zeroSeed sumAcc [emptyEnv] none).2.1 (.intV 0) _ rfl rfl,
   (reduce_construction_errors zeroSeed sumAcc sampleS
      (some (.failure "traversal boom"))).2.2 (.intV 0) (.intV 6) _ rfl rfl rfl⟩

/-- C10: the reserved binding names are the literal printable strings
"_group" and "_acc"; the GroupBy step binds the evaluated key under
`groupEnvKey` in its output frame with the outer reference on the incoming
environment; under lexical lookup that local binding shadows any
identically named binding visible through the incoming environment (the
collision); and a successful Reduce construction keeps the final
accumulator bound under `accEnvKey` in every frame its step function
returns. -/
theorem reserved_binding_names :
    groupEnvKey = "_group" ∧ accEnvKey = "_acc" ∧
    (∀ (E : Expr) (env : Environment) (v : Value), E env = .ok v →
      groupByStep E env = .ok (some (.mk [(groupEnvKey, v)] none (some env)))) ∧
    (∀ (env : Environment) (v w : Value), env.get groupEnvKey = some w →
      (Environment.mk [(groupEnvKey, v)] none (some env)).get groupEnvKey = some v) ∧
    (∀ (Seed Acc : Expr) (items : List Environment) (s a : Value),
      Seed emptyEnv = .ok s → specFold Acc s items = .ok a →
      ∃ f, ReduceOperator.Op Seed Acc ⟨items, none⟩ = .ok f ∧
        ∀ env, (f env).get accEnvKey = some a) := by
  refine ⟨rfl, rfl, ?_, ?_, ?_⟩
  · intro E env v hv
    simp [groupByStep, hv]
  · intro env v w _
    simp [Environment.get, lookupLocal]
  · intro Seed Acc items s a hs hf
    refine ⟨_, reduceOp_ok Seed Acc items s a hs hf, ?_⟩
    intro env
    simp [Environment.get, lookupLocal]

/-- A group-key expression for the C10 witness. -/
def keyNine : Expr := fun _ => .ok (.intV 9)

/-- An incoming environment that already carries a user-visible `_group`
binding, to exhibit the collision. -/
def envShadow : Environment := .mk [(groupEnvKey, .intV 5)] (some (.intV 1)) none

/-- Witness for C10: GroupBy rebinds `_group` to the key 9 in its output
frame, shadowing the incoming binding 5, and Reduce keeps the accumulator 6
under `_acc`. -/
theorem reserved_binding_names_witness :
    groupByStep keyNine envShadow =
      .ok (some (.mk [(groupEnvKey, .intV 9)] none (some envShadow))) ∧
    (Environment.mk [(groupEnvKey, .intV 9)] none (some envShadow)).get groupEnvKey =
      some (.intV 9) ∧
    (∃ f, ReduceOperator.Op zeroSeed sumAcc ⟨groupedS, none⟩ = .ok f ∧
      ∀ env, (f env).get accEnvKey = some (.intV 6)) :=
  ⟨reserved_binding_names.2.2.1 keyNine envShadow (.intV 9) rfl,
   reserved_binding_names.2.2.2.1 envShadow (.intV 9) (.intV 5) rfl,
   reserved_binding_names.2.2.2.2 zeroSeed sumAcc groupedS (.intV 0) (.intV 6) rfl rfl⟩

end Genji
